import Mathlib

/-!
Verification of the laser-diffraction visualizer (the `LaserDiffraction`
component). The component's numeric pipeline runs on JavaScript doubles; we
embed those as an inductive `JsNum` over exact reals (finite value, NaN, or a
signed infinity), keeping JavaScript's comparison semantics (any comparison
involving NaN is false) and its propagation rules for NaN and infinities
through `*`, `/`, `+`, `Math.abs`, `Math.asin` and `Math.tan`. Floating-point
rounding, overflow to infinity and negative zero are idealized away: every
finite double is modelled as the exact real it denotes.

The diffraction loop, the draw-command stream of `generatePattern` (both the
zoom-enabled variant and the captioned non-zoom variant), the component state
with its material preset effect, and the screenshot path are translated
definition by definition from the source.
-/

open Classical

/-- A JavaScript number: a finite real, NaN, or a signed infinity. -/
inductive JsNum : Type where
  | fin (x : ℝ)
  | nan
  | posInf
  | negInf
deriving Inhabited

namespace JsNum

/-- JavaScript multiplication. NaN absorbs; `Infinity * 0` is NaN. -/
noncomputable def jsMul : JsNum → JsNum → JsNum
  | nan, _ => nan
  | _, nan => nan
  | fin a, fin b => fin (a * b)
  | posInf, fin b => if 0 < b then posInf else if b < 0 then negInf else nan
  | fin a, posInf => if 0 < a then posInf else if a < 0 then negInf else nan
  | negInf, fin b => if 0 < b then negInf else if b < 0 then posInf else nan
  | fin a, negInf => if 0 < a then negInf else if a < 0 then posInf else nan
  | posInf, posInf => posInf
  | posInf, negInf => negInf
  | negInf, posInf => negInf
  | negInf, negInf => posInf

/-- JavaScript division. `0/0` is NaN, `x/0` is a signed infinity (zero is
treated as `+0`; negative zero is not modelled). -/
noncomputable def jsDiv : JsNum → JsNum → JsNum
  | nan, _ => nan
  | _, nan => nan
  | fin a, fin b =>
      if b = 0 then (if a = 0 then nan else if 0 < a then posInf else negInf)
      else fin (a / b)
  | fin _, posInf => fin 0
  | fin _, negInf => fin 0
  | posInf, fin b => if b < 0 then negInf else posInf
  | negInf, fin b => if b < 0 then posInf else negInf
  | posInf, posInf => nan
  | posInf, negInf => nan
  | negInf, posInf => nan
  | negInf, negInf => nan

/-- JavaScript addition (needed for the label x-position). -/
noncomputable def jsAdd : JsNum → JsNum → JsNum
  | nan, _ => nan
  | _, nan => nan
  | fin a, fin b => fin (a + b)
  | posInf, fin _ => posInf
  | fin _, posInf => posInf
  | negInf, fin _ => negInf
  | fin _, negInf => negInf
  | posInf, posInf => posInf
  | negInf, negInf => negInf
  | posInf, negInf => nan
  | negInf, posInf => nan

/-- `Math.abs`. -/
noncomputable def jsAbs : JsNum → JsNum
  | fin a => fin |a|
  | nan => nan
  | posInf => posInf
  | negInf => posInf

/-- `Math.asin`: NaN outside `[-1, 1]` and on NaN or infinite input. -/
noncomputable def jsAsin : JsNum → JsNum
  | fin x => if |x| ≤ 1 then fin (Real.arcsin x) else nan
  | _ => nan

/-- `Math.tan` on a finite argument; NaN and infinities map to NaN. -/
noncomputable def jsTan : JsNum → JsNum
  | fin x => fin (Real.tan x)
  | _ => nan

/-- The JavaScript comparison `a >= b`: false whenever either side is NaN. -/
def jsGe : JsNum → JsNum → Prop
  | nan, _ => False
  | _, nan => False
  | fin a, fin b => b ≤ a
  | posInf, _ => True
  | _, posInf => False
  | _, negInf => True
  | negInf, _ => False

/-- The JavaScript comparison `a <= b`: false whenever either side is NaN. -/
def jsLe : JsNum → JsNum → Prop
  | nan, _ => False
  | _, nan => False
  | fin a, fin b => a ≤ b
  | negInf, _ => True
  | _, negInf => False
  | _, posInf => True
  | posInf, _ => False

@[simp] theorem jsMul_fin_fin (a b : ℝ) : jsMul (fin a) (fin b) = fin (a * b) := rfl
@[simp] theorem jsMul_nan_left (x : JsNum) : jsMul nan x = nan := by cases x <;> rfl
@[simp] theorem jsMul_nan_right (x : JsNum) : jsMul x nan = nan := by cases x <;> rfl
@[simp] theorem jsDiv_nan_left (x : JsNum) : jsDiv nan x = nan := by cases x <;> rfl
@[simp] theorem jsDiv_nan_right (x : JsNum) : jsDiv x nan = nan := by cases x <;> rfl
@[simp] theorem jsAdd_fin_fin (a b : ℝ) : jsAdd (fin a) (fin b) = fin (a + b) := rfl
@[simp] theorem jsAbs_fin (a : ℝ) : jsAbs (fin a) = fin |a| := rfl
@[simp] theorem jsAbs_nan : jsAbs nan = nan := rfl
@[simp] theorem jsAsin_nan : jsAsin nan = nan := rfl
@[simp] theorem jsTan_nan : jsTan nan = nan := rfl
@[simp] theorem jsTan_fin (x : ℝ) : jsTan (fin x) = fin (Real.tan x) := rfl
@[simp] theorem jsGe_nan_left (x : JsNum) : ¬ jsGe nan x := by cases x <;> exact fun h => h
@[simp] theorem jsGe_nan_right (x : JsNum) : ¬ jsGe x nan := by cases x <;> exact fun h => h
@[simp] theorem jsLe_nan_left (x : JsNum) : ¬ jsLe nan x := by cases x <;> exact fun h => h
@[simp] theorem jsLe_nan_right (x : JsNum) : ¬ jsLe x nan := by cases x <;> exact fun h => h
@[simp] theorem jsGe_fin_fin (a b : ℝ) : jsGe (fin a) (fin b) ↔ b ≤ a := Iff.rfl
@[simp] theorem jsLe_fin_fin (a b : ℝ) : jsLe (fin a) (fin b) ↔ a ≤ b := Iff.rfl

theorem jsDiv_fin_fin (a b : ℝ) (hb : b ≠ 0) : jsDiv (fin a) (fin b) = fin (a / b) := by
  simp [jsDiv, hb]

theorem jsAsin_fin_of_le (x : ℝ) (hx : |x| ≤ 1) : jsAsin (fin x) = fin (Real.arcsin x) := by
  simp [jsAsin, hx]

end JsNum

open JsNum

/-! ### The diffraction-ring pipeline of `generatePattern`

Translated from the loop body of `generatePattern`:

* `sinTheta = m * wavelengthSI / particleSizeSI`
* skip the order when `Math.abs(sinTheta) >= 1`
* `theta = Math.asin(sinTheta)`, `radius = distanceSI * Math.tan(theta)`
* `pixelRadius = radius * scaleFactor`
* draw only when `pixelRadius <= Math.min(width, height) / 2`.
-/

/-- One emitted diffraction ring: its order and its pixel radius. -/
structure RingGeometry where
  order : ℕ
  pixelRadius : JsNum
deriving Inhabited

/-- `sinTheta = m * wavelengthSI / particleSizeSI` for order `m`. -/
noncomputable def sinThetaOf (wSI pSI : JsNum) (m : ℕ) : JsNum :=
  jsDiv (jsMul (JsNum.fin m) wSI) pSI

/-- `theta = Math.asin(sinTheta)`. -/
noncomputable def thetaOf (wSI pSI : JsNum) (m : ℕ) : JsNum :=
  jsAsin (sinThetaOf wSI pSI m)

/-- `radius = distanceSI * Math.tan(theta)`. -/
noncomputable def radiusOf (wSI dSI pSI : JsNum) (m : ℕ) : JsNum :=
  jsMul dSI (jsTan (thetaOf wSI pSI m))

/-- `pixelRadius = radius * scaleFactor`. -/
noncomputable def pixelRadiusOf (wSI dSI pSI : JsNum) (scale : ℝ) (m : ℕ) : JsNum :=
  jsMul (radiusOf wSI dSI pSI m) (JsNum.fin scale)

/-- One iteration of the order loop: `none` when the order is skipped (angle
beyond 90 degrees, or the ring does not fit on the canvas), `some` ring
otherwise. -/
noncomputable def ringAt (wSI dSI pSI : JsNum) (scale halfMin : ℝ) (m : ℕ) :
    Option RingGeometry :=
  if jsGe (jsAbs (sinThetaOf wSI pSI m)) (JsNum.fin 1) then none
  else if jsLe (pixelRadiusOf wSI dSI pSI scale m) (JsNum.fin halfMin) then
    some ⟨m, pixelRadiusOf wSI dSI pSI scale m⟩
  else none

/-- The orders the loop visits: `1, 2, ..., 10`. -/
def orderList : List ℕ := (List.range 10).map (· + 1)

/-- The rings the loop emits, given SI-converted inputs. -/
noncomputable def computeRings (wSI dSI pSI : JsNum) (scale halfMin : ℝ) :
    List RingGeometry :=
  orderList.filterMap (ringAt wSI dSI pSI scale halfMin)

/-- The rings of the zoom-enabled `generatePattern`: converts the parsed inputs
to SI units (`×1e-9`, `×1e-2`, `×1e-6`), uses
`scaleFactor = baseScaleFactor * zoomLevel[0]` with `baseScaleFactor = 4000`,
and the fits-on-canvas bound `Math.min(width, height) / 2`. -/
noncomputable def generateRings (w d p : JsNum) (zoom width height : ℝ) :
    List RingGeometry :=
  computeRings (jsMul w (JsNum.fin 1e-9)) (jsMul d (JsNum.fin 1e-2))
    (jsMul p (JsNum.fin 1e-6)) (4000 * zoom) (min width height / 2)

/-! ### The draw-command stream of `generatePattern`

The canvas is modelled by the ordered list of drawing commands issued to its
2D context; two renders that issue the same command list paint the same
pixels. -/

/-- A drawing command issued to the 2D context. -/
inductive DrawCmd : Type where
  | rect (x y w h : ℝ) (color : String)
  | refLine (x1 y1 x2 y2 : ℝ)
  | dot (cx cy r : ℝ) (color : String)
  | circle (cx cy : ℝ) (r : JsNum) (lineWidth : ℝ) (color : String)
  | text (s : String) (x y : JsNum) (font : String)
  | image (x y : ℝ)
deriving Inhabited

/-- The commands every `generatePattern` variant issues before the ring loop:
clear to black, the two crosshair reference lines, and the 5px central spot. -/
noncomputable def baseCmds (width height : ℝ) : List DrawCmd :=
  [DrawCmd.rect 0 0 width height "black",
   DrawCmd.refLine (width / 2) 0 (width / 2) height,
   DrawCmd.refLine 0 (height / 2) width (height / 2),
   DrawCmd.dot (width / 2) (height / 2) 5 "rgba(255, 0, 0, 0.8)"]

/-- The commands one emitted ring contributes: the stroked circle and its
`m=<order>` label at the 3-o'clock point. -/
noncomputable def ringCmds (cx cy : ℝ) (r : RingGeometry) : List DrawCmd :=
  [DrawCmd.circle cx cy r.pixelRadius 3 "rgba(255, 0, 0, 0.9)",
   DrawCmd.text ("m=" ++ toString r.order)
     (jsAdd (JsNum.fin cx) (jsAdd r.pixelRadius (JsNum.fin 5))) (JsNum.fin cy)
     "12px Arial"]

/-- The caption the non-zoom variant draws after the ring loop. -/
def scaleNote : String :=
  "Note: Diffraction pattern scale has been enhanced for visibility"

/-- The command stream of the zoom-enabled `generatePattern` (the variant with
the zoom slider). It ends with the ring loop: no caption is drawn. -/
noncomputable def renderZoom (w d p : JsNum) (zoom width height : ℝ) : List DrawCmd :=
  baseCmds width height ++
    (generateRings w d p zoom width height).flatMap (ringCmds (width / 2) (height / 2))

/-- The command stream of the non-zoom `generatePattern` variant: the same
pipeline with a constant `scaleFactor = 4000` (i.e. zoom fixed at 1), followed
by the scale caption at `(20, height - 20)`. -/
noncomputable def renderNonZoom (w d p : JsNum) (width height : ℝ) : List DrawCmd :=
  baseCmds width height ++
    (generateRings w d p 1 width height).flatMap (ringCmds (width / 2) (height / 2)) ++
    [DrawCmd.text scaleNote (JsNum.fin 20) (JsNum.fin (height - 20)) "14px Arial"]

/-! ### Component state and the material preset effect -/

/-- `parseFloat` of the host, restricted to the shapes the component ever
feeds it: a string of decimal digits parses to its value, the empty string or
any other malformed string parses to NaN. (Fractional and signed literals do
not occur in the modelled scenarios.) -/
def parseFloat (s : String) : JsNum :=
  match s.toNat? with
  | some n => JsNum.fin n
  | none => JsNum.nan

/-- The React state of the `LaserDiffraction` component. -/
structure ComponentState where
  wavelength : String
  distance : String
  particleSize : String
  selectedMaterial : String
  zoomLevel : ℝ

/-- The `materialsData` preset table: micrometre sizes for the two presets,
`none` for `custom` (whose entry is `null`) and for unknown keys. -/
def materialsData (m : String) : Option ℕ :=
  if m = "lycopodium" then some 30
  else if m = "silica" then some 5
  else none

/-- The material-change `useEffect`: when the material is not `custom` and its
preset entry is truthy, overwrite `particleSize` with the preset's string form
(`?.toString() || '10'`; the fallback is unreachable since a truthy number
never prints as the empty string). -/
def materialEffect (s : ComponentState) : ComponentState :=
  if s.selectedMaterial ≠ "custom" then
    match materialsData s.selectedMaterial with
    | some n => if n ≠ 0 then { s with particleSize := toString n } else s
    | none => s
  else s

/-- Selecting a material in the dropdown: set the state field, then the
material-change effect runs. -/
def setMaterial (s : ComponentState) (m : String) : ComponentState :=
  materialEffect { s with selectedMaterial := m }

/-- Typing into the particle-size field (only possible while it is enabled). -/
def userSetParticleSize (s : ComponentState) (v : String) : ComponentState :=
  { s with particleSize := v }

/-- The `disabled` binding of the particle-size input:
`selectedMaterial !== 'custom'`. -/
def particleSizeDisabled (s : ComponentState) : Bool :=
  s.selectedMaterial ≠ "custom"

/-- The zoom-enabled `generatePattern` reading the component state: it parses
`wavelength`, `distance` and `particleSize` and reads `zoomLevel[0]`; it never
reads `selectedMaterial`. Canvas size is the fixed 800 by 400. -/
noncomputable def renderFromState (s : ComponentState) : List DrawCmd :=
  renderZoom (parseFloat s.wavelength) (parseFloat s.distance)
    (parseFloat s.particleSize) s.zoomLevel 800 400

/-! ### The effectful entry points -/

/-- A canvas element: its size. -/
structure Canvas where
  width : ℝ
  height : ℝ

/-- The screenshot artifact: filename and composed image size. -/
structure Download where
  filename : String
  imageWidth : ℝ
  imageHeight : ℝ

/-- `generatePattern` as invoked: bails out silently when the canvas ref is
empty or `getContext('2d')` fails, else issues the zoom-variant command stream.
Returns the issued commands and the (untouched) component state. -/
noncomputable def generatePatternRun (canvas : Option Canvas) (ctxOk : Bool)
    (s : ComponentState) : List DrawCmd × ComponentState :=
  match canvas with
  | none => ([], s)
  | some c =>
      if ctxOk then
        (renderZoom (parseFloat s.wavelength) (parseFloat s.distance)
          (parseFloat s.particleSize) s.zoomLevel c.width c.height, s)
      else ([], s)

/-- The capitalisation of the material caption:
`charAt(0).toUpperCase() + slice(1)`. -/
def capitalizeJs (m : String) : String :=
  match m.data with
  | [] => ""
  | c :: cs => ⟨c.toUpper :: cs⟩

/-- The commands `takeScreenshot` issues on the screenshot context after both
canvases and the context are acquired: caption-band background fill, the copy
of the main canvas, the two rows of parameter text, the zoom line, and the
right-aligned timestamp. `zoomText` stands for the host-formatted
`zoomLevel[0].toFixed(1)` and `stamp` for the locale-formatted date-time. -/
noncomputable def screenshotCmds (mc : Canvas) (s : ComponentState)
    (zoomText stamp : String) : List DrawCmd :=
  [DrawCmd.rect 0 0 mc.width (mc.height + 100) "#f5f5f5",
   DrawCmd.image 0 0,
   DrawCmd.text ("Material: " ++
       (if s.selectedMaterial = "custom" then "Custom"
        else capitalizeJs s.selectedMaterial))
     (fin 10) (fin (mc.height + 20)) "14px Arial",
   DrawCmd.text ("Wavelength: " ++ s.wavelength ++ " nm")
     (fin 190) (fin (mc.height + 20)) "14px Arial",
   DrawCmd.text ("Particle Size: " ++ s.particleSize ++ " μm")
     (fin 10) (fin (mc.height + 45)) "14px Arial",
   DrawCmd.text ("Screen Distance: " ++ s.distance ++ " cm")
     (fin 190) (fin (mc.height + 45)) "14px Arial",
   DrawCmd.text ("Zoom Level: " ++ zoomText ++ "x")
     (fin 10) (fin (mc.height + 70)) "14px Arial",
   DrawCmd.text ("Generated: " ++ stamp)
     (fin (mc.width - 220)) (fin (mc.height + 70)) "14px Arial"]

/-- `takeScreenshot` as invoked at time `t` (epoch milliseconds): bails out
silently when either canvas ref is empty or the screenshot context fails;
otherwise issues `screenshotCmds` on an image of size
`width x (height + 100)` and triggers the download
`laser-diffraction-<t>.png`. Returns the commands drawn on the screenshot
canvas, the download, and the (untouched) component state. -/
noncomputable def takeScreenshotRun (mainCanvas screenshotCanvas : Option Canvas)
    (ctxOk : Bool) (t : ℕ) (zoomText stamp : String) (s : ComponentState) :
    List DrawCmd × Option Download × ComponentState :=
  match mainCanvas, screenshotCanvas with
  | some mc, some _ =>
      if ctxOk then
        (screenshotCmds mc s zoomText stamp,
         some ⟨"laser-diffraction-" ++ toString t ++ ".png",
           mc.width, mc.height + 100⟩, s)
      else ([], none, s)
  | _, _ => ([], none, s)

/-! ### Structural lemmas about the ring pipeline -/

theorem ringAt_eq_some {wSI dSI pSI : JsNum} {scale halfMin : ℝ} {m : ℕ}
    {r : RingGeometry} (h : ringAt wSI dSI pSI scale halfMin m = some r) :
    r.order = m ∧ r.pixelRadius = pixelRadiusOf wSI dSI pSI scale m ∧
      ¬ jsGe (jsAbs (sinThetaOf wSI pSI m)) (JsNum.fin 1) ∧
      jsLe (pixelRadiusOf wSI dSI pSI scale m) (JsNum.fin halfMin) := by
  unfold ringAt at h
  by_cases h1 : jsGe (jsAbs (sinThetaOf wSI pSI m)) (JsNum.fin 1)
  · rw [if_pos h1] at h; cases h
  · rw [if_neg h1] at h
    by_cases h2 : jsLe (pixelRadiusOf wSI dSI pSI scale m) (JsNum.fin halfMin)
    · rw [if_pos h2] at h
      cases h
      exact ⟨rfl, rfl, h1, h2⟩
    · rw [if_neg h2] at h; cases h

theorem mem_computeRings {wSI dSI pSI : JsNum} {scale halfMin : ℝ}
    {r : RingGeometry} (h : r ∈ computeRings wSI dSI pSI scale halfMin) :
    1 ≤ r.order ∧ r.order ≤ 10 ∧
      ringAt wSI dSI pSI scale halfMin r.order = some r := by
  unfold computeRings at h
  rcases List.mem_filterMap.mp h with ⟨a, ha, hfa⟩
  have ho := (ringAt_eq_some hfa).1
  subst ho
  rcases List.mem_map.mp ha with ⟨i, hi, hia⟩
  have hi10 := List.mem_range.mp hi
  refine ⟨by omega, by omega, hfa⟩

theorem computeRings_length (wSI dSI pSI : JsNum) (scale halfMin : ℝ) :
    (computeRings wSI dSI pSI scale halfMin).length ≤ 10 := by
  have := List.length_filterMap_le (ringAt wSI dSI pSI scale halfMin) orderList
  simpa [computeRings, orderList] using this

theorem computeRings_orders_increasing (wSI dSI pSI : JsNum) (scale halfMin : ℝ) :
    (computeRings wSI dSI pSI scale halfMin).Pairwise
      (fun r r' => r.order < r'.order) := by
  unfold computeRings
  rw [List.pairwise_filterMap]
  have hord : orderList.Pairwise (· < ·) := by decide
  refine hord.imp ?_
  intro a b hab r hr r' hr'
  have := (ringAt_eq_some hr).1
  have := (ringAt_eq_some hr').1
  omega

theorem sinThetaOf_fin (w p : ℝ) (hp : p ≠ 0) (m : ℕ) :
    sinThetaOf (fin w) (fin p) m = fin ((m : ℝ) * w / p) := by
  unfold sinThetaOf
  rw [jsMul_fin_fin, jsDiv_fin_fin _ _ hp]

theorem sinThetaOf_nan_w (pSI : JsNum) (m : ℕ) :
    sinThetaOf JsNum.nan pSI m = JsNum.nan := by
  simp [sinThetaOf]

theorem pixelRadiusOf_eval {wSI pSI : JsNum} {m : ℕ} {x : ℝ} (d' : ℝ)
    (hsin : sinThetaOf wSI pSI m = fin x) (hx : |x| ≤ 1) (scale : ℝ) :
    pixelRadiusOf wSI (fin d') pSI scale m =
      fin (d' * Real.tan (Real.arcsin x) * scale) := by
  unfold pixelRadiusOf radiusOf thetaOf
  rw [hsin, jsAsin_fin_of_le _ hx, jsTan_fin, jsMul_fin_fin, jsMul_fin_fin]

theorem pixelRadiusOf_nan_w (dSI pSI : JsNum) (scale : ℝ) (m : ℕ) :
    pixelRadiusOf JsNum.nan dSI pSI scale m = JsNum.nan := by
  unfold pixelRadiusOf radiusOf thetaOf
  rw [sinThetaOf_nan_w]
  simp

theorem ringAt_emit {wSI pSI : JsNum} {scale halfMin : ℝ} {m : ℕ} {x d' : ℝ}
    (hsin : sinThetaOf wSI pSI m = fin x) (hx : |x| < 1)
    (hfit : d' * Real.tan (Real.arcsin x) * scale ≤ halfMin) :
    ringAt wSI (fin d') pSI scale halfMin m =
      some ⟨m, fin (d' * Real.tan (Real.arcsin x) * scale)⟩ := by
  have h1 : ¬ jsGe (jsAbs (sinThetaOf wSI pSI m)) (JsNum.fin 1) := by
    rw [hsin]
    simpa using not_le.mpr hx
  have hpr := pixelRadiusOf_eval d' hsin hx.le scale
  unfold ringAt
  rw [if_neg h1, hpr, if_pos ((jsLe_fin_fin _ _).mpr hfit)]

theorem ringAt_offcanvas {wSI pSI : JsNum} {scale halfMin : ℝ} {m : ℕ} {x d' : ℝ}
    (hsin : sinThetaOf wSI pSI m = fin x) (hx : |x| < 1)
    (hnofit : ¬ d' * Real.tan (Real.arcsin x) * scale ≤ halfMin) :
    ringAt wSI (fin d') pSI scale halfMin m = none := by
  have h1 : ¬ jsGe (jsAbs (sinThetaOf wSI pSI m)) (JsNum.fin 1) := by
    rw [hsin]
    simpa using not_le.mpr hx
  have hpr := pixelRadiusOf_eval d' hsin hx.le scale
  unfold ringAt
  rw [if_neg h1, hpr, if_neg (by simpa using hnofit)]

theorem ringAt_skip {wSI dSI pSI : JsNum} {scale halfMin : ℝ} {m : ℕ}
    (h1 : jsGe (jsAbs (sinThetaOf wSI pSI m)) (JsNum.fin 1)) :
    ringAt wSI dSI pSI scale halfMin m = none := by
  unfold ringAt
  rw [if_pos h1]

theorem ringAt_nan_w (dSI pSI : JsNum) (scale halfMin : ℝ) (m : ℕ) :
    ringAt JsNum.nan dSI pSI scale halfMin m = none := by
  unfold ringAt
  rw [if_neg, if_neg]
  · rw [pixelRadiusOf_nan_w]
    exact jsLe_nan_left _
  · rw [sinThetaOf_nan_w]
    exact jsGe_nan_left _

/-! ### Bounds for `tan (arcsin x)` -/

theorem tan_arcsin_lower {x : ℝ} (h0 : 0 ≤ x) (h1 : x < 1) :
    x ≤ Real.tan (Real.arcsin x) := by
  rw [Real.tan_arcsin]
  have hx2 : x ^ 2 < 1 := by nlinarith
  have hs_pos : 0 < Real.sqrt (1 - x ^ 2) := Real.sqrt_pos.mpr (by linarith)
  have hs_le : Real.sqrt (1 - x ^ 2) ≤ 1 := by
    have h := Real.sqrt_le_sqrt (show 1 - x ^ 2 ≤ 1 by nlinarith)
    simpa [Real.sqrt_one] using h
  rw [le_div_iff₀ hs_pos]
  nlinarith

theorem tan_arcsin_upper {x b : ℝ} (h0 : 0 ≤ x) (hb : 0 < b)
    (hb2 : b ^ 2 ≤ 1 - x ^ 2) :
    Real.tan (Real.arcsin x) ≤ x / b := by
  rw [Real.tan_arcsin]
  have hs : b ≤ Real.sqrt (1 - x ^ 2) := (Real.le_sqrt hb.le (by nlinarith)).mpr hb2
  have hs_pos : 0 < Real.sqrt (1 - x ^ 2) := lt_of_lt_of_le hb hs
  rw [div_le_div_iff₀ hs_pos hb]
  nlinarith

theorem tan_arcsin_mono {a b : ℝ} (ha : 0 ≤ a) (hab : a ≤ b) (hb : b < 1) :
    Real.tan (Real.arcsin a) ≤ Real.tan (Real.arcsin b) := by
  rw [Real.tan_arcsin, Real.tan_arcsin]
  have hb0 : 0 ≤ b := ha.trans hab
  have h1 : b ^ 2 < 1 := by nlinarith
  have hsb_pos : 0 < Real.sqrt (1 - b ^ 2) := Real.sqrt_pos.mpr (by linarith)
  have hsa_pos : 0 < Real.sqrt (1 - a ^ 2) := Real.sqrt_pos.mpr (by nlinarith)
  have hss : Real.sqrt (1 - b ^ 2) ≤ Real.sqrt (1 - a ^ 2) :=
    Real.sqrt_le_sqrt (by nlinarith)
  rw [div_le_div_iff₀ hsa_pos hsb_pos]
  nlinarith [mul_le_mul hab hss hsb_pos.le hb0]

theorem tan_arcsin_nonneg {x : ℝ} (h0 : 0 ≤ x) :
    0 ≤ Real.tan (Real.arcsin x) := by
  rw [Real.tan_arcsin]
  exact div_nonneg h0 (Real.sqrt_nonneg _)

/-! ### Evaluation at the worked example: 650 nm, 100 cm, 30 um, zoom 1, 800x400 -/

theorem demo_sinTheta (m : ℕ) :
    sinThetaOf (fin (650 * 1e-9)) (fin (30 * 1e-6)) m = fin ((m : ℝ) * 13 / 600) := by
  rw [sinThetaOf_fin _ _ (by norm_num)]
  congr 1
  have h : (650 * 1e-9 : ℝ) / (30 * 1e-6) = 13 / 600 := by norm_num
  rw [mul_div_assoc, h, mul_div_assoc]

theorem demo_sinTheta_small {m : ℕ} (hm : m ≤ 10) : |(m : ℝ) * 13 / 600| < 1 := by
  have h0 : (0 : ℝ) ≤ (m : ℝ) * 13 / 600 := by positivity
  have h10 : (m : ℝ) ≤ 10 := by exact_mod_cast hm
  rw [abs_of_nonneg h0]
  linarith

theorem demo_halfMin : min (800 : ℝ) 400 / 2 = 200 := by norm_num

theorem demo_ring1 :
    ringAt (fin (650 * 1e-9)) (fin (100 * 1e-2)) (fin (30 * 1e-6)) (4000 * 1)
      (min 800 400 / 2) 1 =
      some ⟨1, fin ((100 * 1e-2) * Real.tan (Real.arcsin (13 / 600)) * (4000 * 1))⟩ := by
  have hsin : sinThetaOf (fin (650 * 1e-9)) (fin (30 * 1e-6)) 1 = fin (13 / 600) := by
    rw [demo_sinTheta]
    norm_num
  refine ringAt_emit hsin (by rw [abs_of_nonneg (by norm_num)]; norm_num) ?_
  have ht := tan_arcsin_upper (x := 13 / 600) (b := 99 / 100)
    (by norm_num) (by norm_num) (by norm_num)
  rw [demo_halfMin]
  nlinarith [ht]

theorem demo_ring2 :
    ringAt (fin (650 * 1e-9)) (fin (100 * 1e-2)) (fin (30 * 1e-6)) (4000 * 1)
      (min 800 400 / 2) 2 =
      some ⟨2, fin ((100 * 1e-2) * Real.tan (Real.arcsin (13 / 300)) * (4000 * 1))⟩ := by
  have hsin : sinThetaOf (fin (650 * 1e-9)) (fin (30 * 1e-6)) 2 = fin (13 / 300) := by
    rw [demo_sinTheta]
    norm_num
  refine ringAt_emit hsin (by rw [abs_of_nonneg (by norm_num)]; norm_num) ?_
  have ht := tan_arcsin_upper (x := 13 / 300) (b := 99 / 100)
    (by norm_num) (by norm_num) (by norm_num)
  rw [demo_halfMin]
  nlinarith [ht]

theorem demo_offcanvas {m : ℕ} (h3 : 3 ≤ m) (h10 : m ≤ 10) :
    ringAt (fin (650 * 1e-9)) (fin (100 * 1e-2)) (fin (30 * 1e-6)) (4000 * 1)
      (min 800 400 / 2) m = none := by
  refine ringAt_offcanvas (demo_sinTheta m) (demo_sinTheta_small h10) ?_
  have hm3 : (3 : ℝ) ≤ (m : ℝ) := by exact_mod_cast h3
  have h0 : (0 : ℝ) ≤ (m : ℝ) * 13 / 600 := by positivity
  have hx1 : (m : ℝ) * 13 / 600 < 1 := by
    have h10' : (m : ℝ) ≤ 10 := by exact_mod_cast h10
    linarith
  have hlow := tan_arcsin_lower h0 hx1
  rw [demo_halfMin, not_le]
  nlinarith [hlow]

theorem demo_rings :
    generateRings (fin 650) (fin 100) (fin 30) 1 800 400 =
      [⟨1, fin ((100 * 1e-2) * Real.tan (Real.arcsin (13 / 600)) * (4000 * 1))⟩,
       ⟨2, fin ((100 * 1e-2) * Real.tan (Real.arcsin (13 / 300)) * (4000 * 1))⟩] := by
  rw [generateRings, jsMul_fin_fin, jsMul_fin_fin, jsMul_fin_fin, computeRings,
    show orderList = [1, 2, 3, 4, 5, 6, 7, 8, 9, 10] from by decide,
    List.filterMap_cons_some demo_ring1, List.filterMap_cons_some demo_ring2,
    List.filterMap_cons_none (demo_offcanvas (by norm_num) (by norm_num)),
    List.filterMap_cons_none (demo_offcanvas (by norm_num) (by norm_num)),
    List.filterMap_cons_none (demo_offcanvas (by norm_num) (by norm_num)),
    List.filterMap_cons_none (demo_offcanvas (by norm_num) (by norm_num)),
    List.filterMap_cons_none (demo_offcanvas (by norm_num) (by norm_num)),
    List.filterMap_cons_none (demo_offcanvas (by norm_num) (by norm_num)),
    List.filterMap_cons_none (demo_offcanvas (by norm_num) (by norm_num)),
    List.filterMap_cons_none (demo_offcanvas (by norm_num) (by norm_num)),
    List.filterMap_nil]

theorem demo_pr1_lower :
    (86.6 : ℝ) < (100 * 1e-2) * Real.tan (Real.arcsin (13 / 600)) * (4000 * 1) := by
  have hlow := tan_arcsin_lower (x := 13 / 600) (by norm_num) (by norm_num)
  nlinarith [hlow]

theorem demo_pr1_upper :
    (100 * 1e-2) * Real.tan (Real.arcsin (13 / 600)) * (4000 * 1) < (86.8 : ℝ) := by
  have ht := tan_arcsin_upper (x := 13 / 600) (b := 9997 / 10000)
    (by norm_num) (by norm_num) (by norm_num)
  nlinarith [ht]

/-! ### Zoom acts as a pure multiplicative factor on pixel radii -/

theorem mem_generateRings_of_ringAt {w d p : JsNum} {zoom width height : ℝ}
    {m : ℕ} {r : RingGeometry} (hm : m ∈ orderList)
    (h : ringAt (jsMul w (fin 1e-9)) (jsMul d (fin 1e-2)) (jsMul p (fin 1e-6))
      (4000 * zoom) (min width height / 2) m = some r) :
    r ∈ generateRings w d p zoom width height := by
  unfold generateRings computeRings
  exact List.mem_filterMap.mpr ⟨m, hm, h⟩

theorem pixelRadiusOf_zoom (wSI dSI pSI : JsNum) (z k : ℝ) (hk : 0 < k) (m : ℕ) :
    pixelRadiusOf wSI dSI pSI (4000 * (k * z)) m =
      jsMul (fin k) (pixelRadiusOf wSI dSI pSI (4000 * z) m) := by
  unfold pixelRadiusOf
  cases hR : radiusOf wSI dSI pSI m with
  | fin r =>
      rw [jsMul_fin_fin, jsMul_fin_fin, jsMul_fin_fin]
      congr 1
      ring
  | nan => simp
  | posInf =>
      rcases lt_trichotomy z 0 with hz | hz | hz
      · have ha : (4000 : ℝ) * (k * z) < 0 := by nlinarith
        have hb : (4000 : ℝ) * z < 0 := by nlinarith
        simp [jsMul, not_lt.mpr ha.le, ha, not_lt.mpr hb.le, hb, hk]
      · simp [jsMul, hz]
      · have ha : 0 < (4000 : ℝ) * (k * z) := by nlinarith
        have hb : 0 < (4000 : ℝ) * z := by nlinarith
        simp [jsMul, ha, hb, hk]
  | negInf =>
      rcases lt_trichotomy z 0 with hz | hz | hz
      · have ha : (4000 : ℝ) * (k * z) < 0 := by nlinarith
        have hb : (4000 : ℝ) * z < 0 := by nlinarith
        simp [jsMul, not_lt.mpr ha.le, ha, not_lt.mpr hb.le, hb, hk]
      · simp [jsMul, hz]
      · have ha : 0 < (4000 : ℝ) * (k * z) := by nlinarith
        have hb : 0 < (4000 : ℝ) * z := by nlinarith
        simp [jsMul, ha, hb, hk]

theorem demo_zoom2_ring1 :
    ringAt (fin (650 * 1e-9)) (fin (100 * 1e-2)) (fin (30 * 1e-6)) (4000 * (2 * 1))
      (min 800 400 / 2) 1 =
      some ⟨1, fin ((100 * 1e-2) * Real.tan (Real.arcsin (13 / 600)) * (4000 * (2 * 1)))⟩ := by
  have hsin : sinThetaOf (fin (650 * 1e-9)) (fin (30 * 1e-6)) 1 = fin (13 / 600) := by
    rw [demo_sinTheta]
    norm_num
  refine ringAt_emit hsin (by rw [abs_of_nonneg (by norm_num)]; norm_num) ?_
  have ht := tan_arcsin_upper (x := 13 / 600) (b := 99 / 100)
    (by norm_num) (by norm_num) (by norm_num)
  rw [demo_halfMin]
  nlinarith [ht]

/-! ### Caption detection -/

/-- Whether a drawing command is the scale-exaggeration caption. -/
def mentionsNote : DrawCmd → Bool
  | DrawCmd.text s _ _ _ => s = scaleNote
  | _ => false

theorem label_ne_scaleNote (t : String) : ("m=" ++ t) ≠ scaleNote := by
  intro h
  have h2 : ("m=" ++ t).data.head? = scaleNote.data.head? :=
    congrArg (fun s => s.data.head?) h
  have hl : ("m=" ++ t).data.head? = some 'm' := by
    rw [String.data_append]
    rfl
  have hr : scaleNote.data.head? = some 'N' := rfl
  rw [hl, hr] at h2
  exact absurd (Option.some.inj h2) (by decide)

theorem ringCmds_no_caption {c : DrawCmd} {cx cy : ℝ} {r : RingGeometry}
    (hc : c ∈ ringCmds cx cy r) : ¬ mentionsNote c = true := by
  unfold ringCmds at hc
  rcases List.mem_cons.mp hc with rfl | hc
  · simp [mentionsNote]
  rcases List.mem_cons.mp hc with rfl | hc
  · simp only [mentionsNote, decide_eq_true_eq]
    exact label_ne_scaleNote _
  · cases hc

theorem renderZoom_no_caption (w d p : JsNum) (zoom width height : ℝ) :
    (renderZoom w d p zoom width height).countP mentionsNote = 0 := by
  unfold renderZoom
  have h1 : (baseCmds width height).countP mentionsNote = 0 := rfl
  have h2 : ((generateRings w d p zoom width height).flatMap
      (ringCmds (width / 2) (height / 2))).countP mentionsNote = 0 := by
    refine List.countP_eq_zero.mpr ?_
    intro c hc
    rcases List.mem_flatMap.mp hc with ⟨r, _, hcr⟩
    exact ringCmds_no_caption hcr
  rw [List.countP_append, h1, h2]

/-! ### The claims -/

/-- Claim C1, counterexample: starting from a custom material with the user
having typed 17 into the particle-size field, switching to lycopodium and then
back to custom leaves the field holding the preset value 30, not the user's
last entry 17 — the last user-entered value is not restored. -/
theorem material_roundTrip_loses_entry :
    (setMaterial (setMaterial (userSetParticleSize
        ⟨"650", "100", "10", "custom", 1⟩ "17") "lycopodium") "custom").particleSize
      = "30" ∧
    (setMaterial (setMaterial (userSetParticleSize
        ⟨"650", "100", "10", "custom", 1⟩ "17") "lycopodium") "custom").particleSize
      ≠ "17" := by
  refine ⟨rfl, ?_⟩
  intro h
  rw [show (setMaterial (setMaterial (userSetParticleSize
      ⟨"650", "100", "10", "custom", 1⟩ "17") "lycopodium") "custom").particleSize
      = "30" from rfl] at h
  exact absurd h (by decide)

/-- Claim C1 (amended): switching the material to lycopodium forces
`particleSize = "30"` and disables the particle-size field; switching back to
custom re-enables the field and retains the value currently stored in it (the
preset) — not necessarily the value the user last typed. -/
theorem material_switch_behavior (s : ComponentState) :
    (setMaterial s "lycopodium").particleSize = "30" ∧
    particleSizeDisabled (setMaterial s "lycopodium") = true ∧
    (setMaterial s "custom").particleSize = s.particleSize ∧
    particleSizeDisabled (setMaterial s "custom") = false := by
  refine ⟨?_, ?_, ?_, ?_⟩ <;>
    simp [setMaterial, materialEffect, materialsData, particleSizeDisabled] <;> rfl

/-- Claim C2: for every parameter assignment and every order `m` in 1..10, if
`|m * wavelengthSI / particleSizeSI| >= 1` then `computeRings` emits no ring of
order `m`. -/
theorem beyond90_order_skipped (w d p zoom width height : ℝ) (m : ℕ)
    (hm1 : 1 ≤ m) (hm10 : m ≤ 10)
    (h : 1 ≤ |(m : ℝ) * (w * 1e-9) / (p * 1e-6)|) :
    m ∉ (generateRings (fin w) (fin d) (fin p) zoom width height).map
      RingGeometry.order := by
  intro hmem
  rcases List.mem_map.mp hmem with ⟨r, hr, hro⟩
  unfold generateRings at hr
  rw [jsMul_fin_fin, jsMul_fin_fin, jsMul_fin_fin] at hr
  obtain ⟨_, _, hAt⟩ := mem_computeRings hr
  obtain ⟨_, _, hguard, _⟩ := ringAt_eq_some hAt
  apply hguard
  rw [hro]
  by_cases hp : (p * 1e-6 : ℝ) = 0
  · rw [hp, div_zero, abs_zero] at h
    linarith
  · rw [sinThetaOf_fin _ _ hp, jsAbs_fin]
    exact (jsGe_fin_fin _ _).mpr h

/-- Witness for C2 at wavelength 2 nm, particle size 0.001 um: order 1 has
`sinTheta = 2`, so no ring of order 1 is emitted. -/
theorem beyond90_order_skipped_witness :
    1 ≤ 1 ∧ (1 : ℕ) ≤ 10 ∧
    1 ≤ |(1 : ℕ) * ((2 : ℝ) * 1e-9) / ((0.001 : ℝ) * 1e-6)| ∧
    1 ∉ (generateRings (fin 2) (fin 100) (fin 0.001) 1 800 400).map
      RingGeometry.order :=
  ⟨le_refl 1, by norm_num, by norm_num,
    beyond90_order_skipped 2 100 0.001 1 800 400 1 (le_refl 1) (by norm_num)
      (by norm_num)⟩

/-- Claim C3: with a malformed wavelength (parse yields NaN), every computed
`sinTheta`, `theta` and pixel radius is NaN, the NaN pixel radius fails the
fits-on-canvas comparison, no ring is emitted, the rendered stream is exactly
the base commands (which include the 5px central spot), and — the model being
total — no exception is thrown. -/
theorem nan_wavelength_draws_no_rings (d p : JsNum) (zoom width height : ℝ)
    (m : ℕ) :
    sinThetaOf (jsMul JsNum.nan (fin 1e-9)) (jsMul p (fin 1e-6)) m = JsNum.nan ∧
    thetaOf (jsMul JsNum.nan (fin 1e-9)) (jsMul p (fin 1e-6)) m = JsNum.nan ∧
    pixelRadiusOf (jsMul JsNum.nan (fin 1e-9)) (jsMul d (fin 1e-2))
      (jsMul p (fin 1e-6)) (4000 * zoom) m = JsNum.nan ∧
    ¬ jsLe JsNum.nan (fin (min width height / 2)) ∧
    generateRings JsNum.nan d p zoom width height = [] ∧
    renderZoom JsNum.nan d p zoom width height = baseCmds width height ∧
    DrawCmd.dot (width / 2) (height / 2) 5 "rgba(255, 0, 0, 0.8)"
      ∈ renderZoom JsNum.nan d p zoom width height := by
  have hw : jsMul JsNum.nan (fin (1e-9 : ℝ)) = JsNum.nan := jsMul_nan_left _
  have hsin : sinThetaOf (jsMul JsNum.nan (fin 1e-9)) (jsMul p (fin 1e-6)) m
      = JsNum.nan := by
    rw [hw]
    exact sinThetaOf_nan_w _ m
  have hth : thetaOf (jsMul JsNum.nan (fin 1e-9)) (jsMul p (fin 1e-6)) m
      = JsNum.nan := by
    unfold thetaOf
    rw [hsin, jsAsin_nan]
  have hpr : pixelRadiusOf (jsMul JsNum.nan (fin 1e-9)) (jsMul d (fin 1e-2))
      (jsMul p (fin 1e-6)) (4000 * zoom) m = JsNum.nan := by
    rw [hw]
    exact pixelRadiusOf_nan_w _ _ _ m
  have hrings : generateRings JsNum.nan d p zoom width height = [] := by
    unfold generateRings computeRings
    rw [jsMul_nan_left]
    exact List.filterMap_eq_nil_iff.mpr fun a _ => ringAt_nan_w _ _ _ _ a
  have hrender : renderZoom JsNum.nan d p zoom width height
      = baseCmds width height := by
    unfold renderZoom
    rw [hrings]
    simp
  refine ⟨hsin, hth, hpr, jsLe_nan_left _, hrings, hrender, ?_⟩
  rw [hrender]
  unfold baseCmds
  simp

/-- Claim C4: at wavelength 650 nm, distance 100 cm, particle size 30 um and
zoom 1 on the 800x400 canvas, order 1 has `sinTheta = 13/600 ~ 0.02167`, a
physical radius within 1e-4 of 0.02167 m and a pixel radius strictly between
86.6 and 86.8 px; no order in 1..10 trips the beyond-90-degrees skip, yet the
fits-on-canvas bound of 200 px lets exactly the first two orders draw. -/
theorem worked_example_650_100_30 :
    sinThetaOf (fin (650 * 1e-9)) (fin (30 * 1e-6)) 1 = fin (13 / 600) ∧
    |(13 / 600 : ℝ) - 0.02167| < 1e-5 ∧
    (∀ m : ℕ, m ∈ orderList →
      ¬ jsGe (jsAbs (sinThetaOf (fin (650 * 1e-9)) (fin (30 * 1e-6)) m))
        (fin 1)) ∧
    (∃ rad : ℝ,
      radiusOf (fin (650 * 1e-9)) (fin (100 * 1e-2)) (fin (30 * 1e-6)) 1
        = fin rad ∧ |rad - 0.02167| < 1e-4) ∧
    (∃ r1 : ℝ,
      pixelRadiusOf (fin (650 * 1e-9)) (fin (100 * 1e-2)) (fin (30 * 1e-6))
        (4000 * 1) 1 = fin r1 ∧ 86.6 < r1 ∧ r1 < 86.8) ∧
    min (800 : ℝ) 400 / 2 = 200 ∧
    (generateRings (fin 650) (fin 100) (fin 30) 1 800 400).map
      RingGeometry.order = [1, 2] := by
  have hsin : sinThetaOf (fin (650 * 1e-9)) (fin (30 * 1e-6)) 1
      = fin (13 / 600) := by
    rw [demo_sinTheta]
    norm_num
  have hx : |(13 / 600 : ℝ)| ≤ 1 := by
    rw [abs_of_nonneg (by norm_num)]
    norm_num
  have hlow := tan_arcsin_lower (x := 13 / 600) (by norm_num) (by norm_num)
  have hup := tan_arcsin_upper (x := 13 / 600) (b := 9997 / 10000)
    (by norm_num) (by norm_num) (by norm_num)
  refine ⟨hsin, by rw [abs_lt]; constructor <;> norm_num, ?_, ?_, ?_,
    demo_halfMin, ?_⟩
  · intro m hm
    have hall : ∀ m ∈ orderList, m ≤ 10 := by decide
    rw [demo_sinTheta, jsAbs_fin]
    simp only [jsGe_fin_fin, not_le]
    exact demo_sinTheta_small (hall m hm)
  · refine ⟨(100 * 1e-2) * Real.tan (Real.arcsin (13 / 600)), ?_, ?_⟩
    · unfold radiusOf thetaOf
      rw [hsin, jsAsin_fin_of_le _ hx, jsTan_fin, jsMul_fin_fin]
    · rw [abs_lt]
      constructor <;> nlinarith [hlow, hup]
  · refine ⟨(100 * 1e-2) * Real.tan (Real.arcsin (13 / 600)) * (4000 * 1),
      ?_, demo_pr1_lower, demo_pr1_upper⟩
    exact pixelRadiusOf_eval (100 * 1e-2) hsin hx (4000 * 1)
  · rw [demo_rings]
    rfl

/-- Claim C5: multiplying the zoom by a positive factor `k` multiplies the
pixel radius computed for each diffraction order that survives at both zoom
levels by exactly `k`. -/
theorem zoom_scales_pixelRadius (w d p : JsNum) (z k width height : ℝ)
    (hk : 0 < k) (r r' : RingGeometry)
    (h1 : r ∈ generateRings w d p (k * z) width height)
    (h2 : r' ∈ generateRings w d p z width height)
    (ho : r.order = r'.order) :
    r.pixelRadius = jsMul (fin k) r'.pixelRadius := by
  unfold generateRings at h1 h2
  obtain ⟨_, _, hAt1⟩ := mem_computeRings h1
  obtain ⟨_, _, hAt2⟩ := mem_computeRings h2
  obtain ⟨_, hpr1, _, _⟩ := ringAt_eq_some hAt1
  obtain ⟨_, hpr2, _, _⟩ := ringAt_eq_some hAt2
  rw [hpr1, hpr2, ho, pixelRadiusOf_zoom _ _ _ z k hk]

/-- Witness for C5: at the worked example, ring 1 at zoom 2 has exactly twice
the pixel radius it has at zoom 1. -/
theorem zoom_scales_pixelRadius_witness :
    (0 : ℝ) < 2 ∧
    (RingGeometry.mk 1 (fin ((100 * 1e-2) * Real.tan (Real.arcsin (13 / 600))
        * (4000 * (2 * 1))))).pixelRadius
      = jsMul (fin 2)
        (RingGeometry.mk 1 (fin ((100 * 1e-2) * Real.tan (Real.arcsin (13 / 600))
          * (4000 * 1)))).pixelRadius := by
  have hk : (0 : ℝ) < 2 := by norm_num
  have e1 : ringAt (jsMul (fin 650) (fin 1e-9)) (jsMul (fin 100) (fin 1e-2))
      (jsMul (fin 30) (fin 1e-6)) (4000 * (2 * 1)) (min 800 400 / 2) 1
      = some ⟨1, fin ((100 * 1e-2) * Real.tan (Real.arcsin (13 / 600))
          * (4000 * (2 * 1)))⟩ := by
    rw [jsMul_fin_fin, jsMul_fin_fin, jsMul_fin_fin]
    exact demo_zoom2_ring1
  have e2 : ringAt (jsMul (fin 650) (fin 1e-9)) (jsMul (fin 100) (fin 1e-2))
      (jsMul (fin 30) (fin 1e-6)) (4000 * 1) (min 800 400 / 2) 1
      = some ⟨1, fin ((100 * 1e-2) * Real.tan (Real.arcsin (13 / 600))
          * (4000 * 1))⟩ := by
    rw [jsMul_fin_fin, jsMul_fin_fin, jsMul_fin_fin]
    exact demo_ring1
  exact ⟨hk, zoom_scales_pixelRadius (fin 650) (fin 100) (fin 30) 1 2 800 400 hk
    _ _ (mem_generateRings_of_ringAt (by decide) e1)
    (mem_generateRings_of_ringAt (by decide) e2) rfl⟩

/-- Claim C6: with all of wavelength, distance, particle size and zoom
positive, the pixel radii of emitted rings are monotonically non-decreasing in
the diffraction order. -/
theorem pixelRadius_mono_in_order (w d p zoom width height : ℝ)
    (hw : 0 < w) (hd : 0 < d) (hp : 0 < p) (hz : 0 < zoom)
    (r r' : RingGeometry)
    (h1 : r ∈ generateRings (fin w) (fin d) (fin p) zoom width height)
    (h2 : r' ∈ generateRings (fin w) (fin d) (fin p) zoom width height)
    (hord : r.order ≤ r'.order) :
    jsLe r.pixelRadius r'.pixelRadius := by
  unfold generateRings at h1 h2
  rw [jsMul_fin_fin, jsMul_fin_fin, jsMul_fin_fin] at h1 h2
  obtain ⟨_, _, hAt1⟩ := mem_computeRings h1
  obtain ⟨_, _, hAt2⟩ := mem_computeRings h2
  obtain ⟨_, hpr1, hg1, _⟩ := ringAt_eq_some hAt1
  obtain ⟨_, hpr2, hg2, _⟩ := ringAt_eq_some hAt2
  have hpSI : (p * 1e-6 : ℝ) ≠ 0 := by positivity
  have hx0 : (0 : ℝ) ≤ (r.order : ℝ) * (w * 1e-9) / (p * 1e-6) := by positivity
  have hx0' : (0 : ℝ) ≤ (r'.order : ℝ) * (w * 1e-9) / (p * 1e-6) := by positivity
  have hxx : (r.order : ℝ) * (w * 1e-9) / (p * 1e-6)
      ≤ (r'.order : ℝ) * (w * 1e-9) / (p * 1e-6) := by
    gcongr
  have hx1' : (r'.order : ℝ) * (w * 1e-9) / (p * 1e-6) < 1 := by
    rw [sinThetaOf_fin _ _ hpSI, jsAbs_fin] at hg2
    simp only [jsGe_fin_fin, not_le] at hg2
    exact lt_of_le_of_lt (le_abs_self _) hg2
  have hx1 : (r.order : ℝ) * (w * 1e-9) / (p * 1e-6) < 1 :=
    lt_of_le_of_lt hxx hx1'
  have hPr1 := pixelRadiusOf_eval (d * 1e-2)
    (sinThetaOf_fin (w * 1e-9) (p * 1e-6) hpSI r.order)
    (by rw [abs_of_nonneg hx0]; exact hx1.le) (4000 * zoom)
  have hPr2 := pixelRadiusOf_eval (d * 1e-2)
    (sinThetaOf_fin (w * 1e-9) (p * 1e-6) hpSI r'.order)
    (by rw [abs_of_nonneg hx0']; exact hx1'.le) (4000 * zoom)
  rw [hpr1, hpr2, hPr1, hPr2]
  refine (jsLe_fin_fin _ _).mpr ?_
  have ht := tan_arcsin_mono hx0 hxx hx1'
  exact mul_le_mul_of_nonneg_right
    (mul_le_mul_of_nonneg_left ht (by positivity)) (by positivity)

/-- Witness for C6: at the worked example, ring 1's pixel radius is at most
ring 2's. -/
theorem pixelRadius_mono_in_order_witness :
    (0 : ℝ) < 650 ∧ (0 : ℝ) < 100 ∧ (0 : ℝ) < 30 ∧ (0 : ℝ) < 1 ∧
    (RingGeometry.mk 1 (fin ((100 * 1e-2) * Real.tan (Real.arcsin (13 / 600))
        * (4000 * 1)))).order
      ≤ (RingGeometry.mk 2 (fin ((100 * 1e-2) * Real.tan (Real.arcsin (13 / 300))
        * (4000 * 1)))).order ∧
    jsLe (RingGeometry.mk 1 (fin ((100 * 1e-2) * Real.tan (Real.arcsin (13 / 600))
        * (4000 * 1)))).pixelRadius
      (RingGeometry.mk 2 (fin ((100 * 1e-2) * Real.tan (Real.arcsin (13 / 300))
        * (4000 * 1)))).pixelRadius := by
  have e1 : ringAt (jsMul (fin 650) (fin 1e-9)) (jsMul (fin 100) (fin 1e-2))
      (jsMul (fin 30) (fin 1e-6)) (4000 * 1) (min 800 400 / 2) 1
      = some ⟨1, fin ((100 * 1e-2) * Real.tan (Real.arcsin (13 / 600))
          * (4000 * 1))⟩ := by
    rw [jsMul_fin_fin, jsMul_fin_fin, jsMul_fin_fin]
    exact demo_ring1
  have e2 : ringAt (jsMul (fin 650) (fin 1e-9)) (jsMul (fin 100) (fin 1e-2))
      (jsMul (fin 30) (fin 1e-6)) (4000 * 1) (min 800 400 / 2) 2
      = some ⟨2, fin ((100 * 1e-2) * Real.tan (Real.arcsin (13 / 300))
          * (4000 * 1))⟩ := by
    rw [jsMul_fin_fin, jsMul_fin_fin, jsMul_fin_fin]
    exact demo_ring2
  refine ⟨by norm_num, by norm_num, by norm_num, by norm_num, by norm_num, ?_⟩
  exact pixelRadius_mono_in_order 650 100 30 1 800 400 (by norm_num) (by norm_num)
    (by norm_num) (by norm_num) _ _
    (mem_generateRings_of_ringAt (by decide) e1)
    (mem_generateRings_of_ringAt (by decide) e2) (by norm_num)

/-- Claim C7, counterexample: at the default parameters the zoom-enabled
render issues no command carrying the scale-exaggeration caption — the claim
that every render invocation draws the caption fails on this variant. -/
theorem zoom_render_caption_missing :
    (renderZoom (fin 650) (fin 100) (fin 30) 1 800 400).countP mentionsNote
      = 0 :=
  renderZoom_no_caption (fin 650) (fin 100) (fin 30) 1 800 400

/-- Claim C7 (amended): the non-zoom `generatePattern` variant draws the fixed
scale-exaggeration caption as its final command on every invocation; the
zoom-enabled variant never draws the caption. -/
theorem caption_only_in_nonzoom_variant (w d p : JsNum)
    (zoom width height : ℝ) :
    (renderNonZoom w d p width height).getLast?
      = some (DrawCmd.text scaleNote (fin 20) (fin (height - 20))
          "14px Arial") ∧
    (renderZoom w d p zoom width height).countP mentionsNote = 0 := by
  constructor
  · unfold renderNonZoom
    simp [List.getLast?_append]
  · exact renderZoom_no_caption w d p zoom width height

/-- Claim C8: when the canvas or its 2D context is unavailable, both the
render and the screenshot path are silent no-ops: no command is issued, no
download is produced, and the component state is returned unchanged. -/
theorem missing_context_silent_noop (c mc : Canvas) (ctxOk : Bool) (t : ℕ)
    (zoomText stamp : String) (s : ComponentState) (sc : Option Canvas) :
    generatePatternRun none ctxOk s = ([], s) ∧
    generatePatternRun (some c) false s = ([], s) ∧
    takeScreenshotRun none sc ctxOk t zoomText stamp s = ([], none, s) ∧
    takeScreenshotRun (some mc) none ctxOk t zoomText stamp s
      = ([], none, s) ∧
    takeScreenshotRun (some mc) (some c) false t zoomText stamp s
      = ([], none, s) := by
  refine ⟨rfl, rfl, ?_, rfl, rfl⟩
  cases sc <;> rfl

/-- Claim C9: the render operation never reads the material selection — two
states agreeing on wavelength, distance, particle size and zoom render to
identical command streams regardless of their materials. -/
theorem render_ignores_material (s s' : ComponentState)
    (hw : s.wavelength = s'.wavelength) (hd : s.distance = s'.distance)
    (hp : s.particleSize = s'.particleSize)
    (hz : s.zoomLevel = s'.zoomLevel) :
    renderFromState s = renderFromState s' := by
  unfold renderFromState
  rw [hw, hd, hp, hz]

/-- Witness for C9: the default state under lycopodium and the same numeric
state under custom render identically. -/
theorem render_ignores_material_witness :
    (ComponentState.mk "650" "100" "30" "lycopodium" 1).wavelength
      = (ComponentState.mk "650" "100" "30" "custom" 1).wavelength ∧
    (ComponentState.mk "650" "100" "30" "lycopodium" 1).distance
      = (ComponentState.mk "650" "100" "30" "custom" 1).distance ∧
    (ComponentState.mk "650" "100" "30" "lycopodium" 1).particleSize
      = (ComponentState.mk "650" "100" "30" "custom" 1).particleSize ∧
    (ComponentState.mk "650" "100" "30" "lycopodium" 1).zoomLevel
      = (ComponentState.mk "650" "100" "30" "custom" 1).zoomLevel ∧
    renderFromState (ComponentState.mk "650" "100" "30" "lycopodium" 1)
      = renderFromState (ComponentState.mk "650" "100" "30" "custom" 1) :=
  ⟨rfl, rfl, rfl, rfl,
    render_ignores_material _ _ rfl rfl rfl rfl⟩

/-- Claim C10: every emitted ring set has at most 10 rings, orders in 1..10,
strictly increasing orders in emission order, and every emitted pixel radius
within the fits-on-canvas bound `min(width, height) / 2`. -/
theorem ring_emission_invariants (w d p : JsNum) (zoom width height : ℝ) :
    (generateRings w d p zoom width height).length ≤ 10 ∧
    (∀ r ∈ generateRings w d p zoom width height,
      1 ≤ r.order ∧ r.order ≤ 10 ∧
        jsLe r.pixelRadius (fin (min width height / 2))) ∧
    (generateRings w d p zoom width height).Pairwise
      (fun a b => a.order < b.order) := by
  unfold generateRings
  refine ⟨computeRings_length _ _ _ _ _, ?_,
    computeRings_orders_increasing _ _ _ _ _⟩
  intro r hr
  obtain ⟨hm1, hm10, hAt⟩ := mem_computeRings hr
  obtain ⟨_, hpr, _, hle⟩ := ringAt_eq_some hAt
  refine ⟨hm1, hm10, ?_⟩
  rw [hpr]
  exact hle
